import Mathlib

/-!
Shallow embedding of the coredns-updater-plugin record store and resolution
engine (package `dynupdate`), translated from `src/store.go`, `src/record.go`
and the DNS handler source. Machine integers (uint8/16/32/64) are modelled as
`Nat`: no arithmetic in the embedded code can overflow on the values the
program manipulates (TTLs, counters, ports), and no claim concerns wrap-around.
Go maps are modelled as association lists whose entry order stands for the
(arbitrary) map iteration order; file I/O is modelled as explicit state.
-/

namespace DynUpdate

/-- Models Go `strings.ToLower` (the plugin only handles ASCII domain names,
where per-character lowering agrees with Go's Unicode lowering). Written over
the underlying character list so that it evaluates by kernel reduction. -/
def strLower (s : String) : String := String.mk (s.data.map Char.toLower)

/-- Models Go `strings.ToUpper`, same ASCII proviso as `strLower`. -/
def strUpper (s : String) : String := String.mk (s.data.map Char.toUpper)

/-- Models Go `strings.HasSuffix` / Lean `String.endsWith`. -/
def strEndsWith (s suffix : String) : Bool := suffix.data.isSuffixOf s.data

/-- Models Go `strings.Contains` for a single-character separator. -/
def strContainsChar (s : String) (c : Char) : Bool := s.data.contains c

/-- Split a character list on a separator character, Go `strings.Split`
semantics (`splitChar "".data c = [[]]`, empty fields kept). -/
def splitChar (l : List Char) (c : Char) : List (List Char) :=
  match l with
  | [] => [[]]
  | x :: rest =>
    match splitChar rest c with
    | [] => [[]]
    | g :: gs => if x == c then [] :: g :: gs else (x :: g) :: gs

/-- Models Go `strings.Split(s, sep)` for a one-character separator. -/
def strSplitOn (s : String) (c : Char) : List String :=
  (splitChar s.data c).map String.mk

/-- Decimal digit characters to the number they denote. -/
def digitsToNat (l : List Char) : Nat :=
  l.foldl (fun n c => n * 10 + (c.toNat - 48)) 0

/-- Models Go `strings.EqualFold`: case-insensitive string equality
(on ASCII, Go's Unicode case folding coincides with lowercase comparison). -/
def equalFold (a b : String) : Bool := strLower a == strLower b

/-- `SyncPolicy` from store.go: which mutation operations the store permits. -/
inductive SyncPolicy where
  | sync
  | createOnly
  | updateOnly
  | upsertOnly
deriving DecidableEq, Repr

/-- `Record` from record.go. `ttl : uint32`, `priority/weight/port : uint16`,
`flag : uint8` are modelled as `Nat`. -/
structure Record where
  name : String
  type : String
  ttl : Nat
  value : String
  priority : Nat := 0
  weight : Nat := 0
  port : Nat := 0
  flag : Nat := 0
  tag : String := ""
deriving DecidableEq, Repr

/-- The validation failure cases of `Record.Validate` and its helpers;
the Go code returns `error` values distinguished only by message text. -/
inductive ValidationError where
  | nameEmpty
  | nameNoTrailingDot
  | typeEmpty
  | typeUnsupported
  | ttlOutOfRange
  | valueInvalid
deriving DecidableEq, Repr

def DefaultTTL : Nat := 3600
def MinTTL : Nat := 60
def MaxTTL : Nat := 86400

/-- `supportedTypes` from record.go. -/
def supportedTypes : List String :=
  ["A", "AAAA", "CNAME", "TXT", "MX", "SRV", "NS", "PTR", "CAA"]

/-- `validCAATags` from record.go. -/
def validCAATags : List String := ["issue", "issuewild", "iodef"]

/-- One dotted-decimal field of an IPv4 address as accepted by Go
`net.ParseIP`: 1-3 decimal digits, value at most 255, no leading zero. -/
def v4FieldOk (s : String) : Bool :=
  decide (0 < s.data.length) && decide (s.data.length ≤ 3) &&
    s.data.all Char.isDigit && (s.data.length == 1 || !(s.data.headD '0' == '0')) &&
    decide (digitsToNat s.data ≤ 255)

/-- Models `net.ParseIP(v) != nil && ip.To4() != nil` for the dotted-quad
form (the IPv4-mapped-IPv6 spelling of a v4 address is not modelled; no
claim depends on it). -/
def isIPv4 (s : String) : Bool :=
  match strSplitOn s '.' with
  | [a, b, c, d] => v4FieldOk a && v4FieldOk b && v4FieldOk c && v4FieldOk d
  | _ => false

/-- Coarse model of the IPv6 branch of Go `net.ParseIP` (presence of a colon
and absence of a valid v4 form); no claim in this development exercises
IPv6 value validation. -/
def isIPv6 (s : String) : Bool := strContainsChar s ':' && !(isIPv4 s)

/-- Number of consecutive backslashes at the end of `s`. -/
def trailingBackslashes (s : String) : Nat :=
  (s.data.reverse.takeWhile (fun c => c == '\\')).length

/-- Models `dns.IsFqdn` from miekg/dns: nonempty, ends in an unescaped dot. -/
def isFqdn (s : String) : Bool :=
  decide (0 < s.data.length) && strEndsWith s "." &&
    (trailingBackslashes (String.mk s.data.dropLast)) % 2 == 0

/-- `Record.validateValue` and the per-type helpers from record.go; the Go
methods return only an `error`, modelled as `Except ValidationError Unit`. -/
def validateValue (r : Record) : Except ValidationError Unit :=
  match r.type with
  | "A" =>
      if isIPv4 r.value then Except.ok () else Except.error ValidationError.valueInvalid
  | "AAAA" =>
      if isIPv6 r.value then Except.ok () else Except.error ValidationError.valueInvalid
  | "CNAME" | "NS" | "PTR" =>
      if isFqdn r.value then Except.ok () else Except.error ValidationError.valueInvalid
  | "TXT" =>
      if r.value != "" then Except.ok () else Except.error ValidationError.valueInvalid
  | "MX" =>
      if isFqdn r.value then Except.ok () else Except.error ValidationError.valueInvalid
  | "SRV" =>
      if !(isFqdn r.value) then Except.error ValidationError.valueInvalid
      else if r.port == 0 then Except.error ValidationError.valueInvalid
      else Except.ok ()
  | "CAA" =>
      if r.value == "" then Except.error ValidationError.valueInvalid
      else if r.tag == "" then Except.error ValidationError.valueInvalid
      else if !(validCAATags.contains r.tag) then Except.error ValidationError.valueInvalid
      else Except.ok ()
  | _ => Except.ok ()

/-- `Record.Validate` from record.go. The Go method mutates the record in
place (uppercases the type, defaults a zero TTL) and returns an `error`;
here the normalised record is returned in the `ok` case. -/
def validate (r : Record) : Except ValidationError Record :=
  if r.name == "" then Except.error ValidationError.nameEmpty
  else if !(strEndsWith r.name ".") then Except.error ValidationError.nameNoTrailingDot
  else
    let t := strUpper r.type
    if t == "" then Except.error ValidationError.typeEmpty
    else if !(supportedTypes.contains t) then Except.error ValidationError.typeUnsupported
    else
      let ttl := if r.ttl == 0 then DefaultTTL else r.ttl
      if ttl < MinTTL || ttl > MaxTTL then Except.error ValidationError.ttlOutOfRange
      else
        match validateValue { r with type := t, ttl := ttl } with
        | Except.ok _ => Except.ok { r with type := t, ttl := ttl }
        | Except.error e => Except.error e

/-- `true` on the `ok` constructor, like a Go `err == nil` check. -/
def exOk {α β : Type} : Except α β → Bool
  | Except.ok _ => true
  | Except.error _ => false

/-- The mutation errors the store reports: `ErrPolicyDenied` and the
"record limit of N reached" error (`CapacityExceeded` in the spec). -/
inductive StoreErr where
  | policyDenied
  | capacityExceeded
deriving DecidableEq, Repr

/-- The `Store` fields that participate in the index logic: `records`
(Go map keyed by lowercase FQDN, modelled as an association list whose
order stands for map iteration order), `maxRecords`, `syncPolicy` and
`generation`. The lock fields, file path and mtime bookkeeping are
concurrency/I/O plumbing with no algebra to model. -/
structure Store where
  records : List (String × List Record)
  maxRecords : Nat
  syncPolicy : SyncPolicy
  generation : Nat
deriving DecidableEq, Repr

/-- Go map read `m[k]` with nil default. -/
def getList (m : List (String × List Record)) (k : String) : List Record :=
  match m with
  | [] => []
  | (k', v) :: rest => if k' == k then v else getList rest k

/-- Go map write `m[k] = v`. -/
def setList (m : List (String × List Record)) (k : String) (v : List Record) :
    List (String × List Record) :=
  match m with
  | [] => [(k, v)]
  | (k', v') :: rest => if k' == k then (k', v) :: rest else (k', v') :: setList rest k v

/-- Go map `delete(m, k)`. -/
def delKey (m : List (String × List Record)) (k : String) :
    List (String × List Record) :=
  match m with
  | [] => []
  | (k', v') :: rest => if k' == k then rest else (k', v') :: delKey rest k

/-- `collectLocked` from store.go: all records as a flat slice. -/
def collect (m : List (String × List Record)) : List Record :=
  match m with
  | [] => []
  | (_, v) :: rest => v ++ collect rest

/-- `countLocked` from store.go: total number of records. -/
def countStore (m : List (String × List Record)) : Nat := (collect m).length

/-- The match condition of the upsert/delete loops in store.go:
`strings.EqualFold(existing.Type, r.Type) && existing.Value == r.Value`. -/
def identMatch (x r : Record) : Bool := equalFold x.type r.type && x.value == r.value

/-- The index-search loop of `applyUpsert`: index of the first record
matching on (type, value), if any. -/
def matchIdx (recs : List Record) (r : Record) : Option Nat :=
  match recs with
  | [] => none
  | x :: rest => if identMatch x r then some 0 else (matchIdx rest r).map (· + 1)

/-- `Store.applyUpsert` from store.go. The Go method mutates the receiver and
returns `(snapshot, generation, error)`; modelled as the resulting store
(unchanged on error, as the Go code returns before mutating) paired with the
result. -/
def applyUpsert (s : Store) (r : Record) :
    Store × Except StoreErr (List Record × Nat) :=
  let key := strLower r.name
  let recs := getList s.records key
  let idx := matchIdx recs r
  let found := idx.isSome
  if s.syncPolicy == SyncPolicy.createOnly && found then
    (s, Except.error StoreErr.policyDenied)
  else if s.syncPolicy == SyncPolicy.updateOnly && !found then
    (s, Except.error StoreErr.policyDenied)
  else
    match idx with
    | some i =>
        let recs' := recs.set i r
        let s' := { s with records := setList s.records key recs',
                           generation := s.generation + 1 }
        (s', Except.ok (collect s'.records, s'.generation))
    | none =>
        if 0 < s.maxRecords && s.maxRecords ≤ countStore s.records then
          (s, Except.error StoreErr.capacityExceeded)
        else
          let recs' := recs ++ [r]
          let s' := { s with records := setList s.records key recs',
                             generation := s.generation + 1 }
          (s', Except.ok (collect s'.records, s'.generation))

/-- `Store.applyDelete` from store.go. -/
def applyDelete (s : Store) (name qtype value : String) :
    Store × Except StoreErr (List Record × Nat) :=
  if s.syncPolicy != SyncPolicy.sync then (s, Except.error StoreErr.policyDenied)
  else
    let key := strLower name
    let recs := getList s.records key
    let filtered := recs.filter (fun r => !(equalFold r.type qtype && r.value == value))
    let records' := if filtered.isEmpty then delKey s.records key
                    else setList s.records key filtered
    let s' := { s with records := records', generation := s.generation + 1 }
    (s', Except.ok (collect s'.records, s'.generation))

/-- `Store.applyDeleteByType` from store.go. -/
def applyDeleteByType (s : Store) (name qtype : String) :
    Store × Except StoreErr (List Record × Nat) :=
  if s.syncPolicy != SyncPolicy.sync then (s, Except.error StoreErr.policyDenied)
  else
    let key := strLower name
    let recs := getList s.records key
    let filtered := recs.filter (fun r => !(equalFold r.type qtype))
    let records' := if filtered.isEmpty then delKey s.records key
                    else setList s.records key filtered
    let s' := { s with records := records', generation := s.generation + 1 }
    (s', Except.ok (collect s'.records, s'.generation))

/-- `Store.applyDeleteAll` from store.go. -/
def applyDeleteAll (s : Store) (name : String) :
    Store × Except StoreErr (List Record × Nat) :=
  if s.syncPolicy != SyncPolicy.sync then (s, Except.error StoreErr.policyDenied)
  else
    let key := strLower name
    let s' := { s with records := delKey s.records key, generation := s.generation + 1 }
    (s', Except.ok (collect s'.records, s'.generation))

/-- `Store.Get` from store.go. -/
def Store.get (s : Store) (name qtype : String) : List Record :=
  (getList s.records (strLower name)).filter (fun r => equalFold r.type qtype)

/-- `Store.GetAll` from store.go. -/
def Store.getAll (s : Store) (name : String) : List Record :=
  getList s.records (strLower name)

/-- `Store.List` from store.go. -/
def Store.list (s : Store) : List Record := collect s.records

/-- The durable side of the store: the persisted-generation marker and the
backing file, whose JSON document `{"records": [...]}` is modelled by the
decoded record list (Go's JSON encode/decode of `storeFile` is lossless on
these field types). -/
structure PersistState where
  persisted : Nat
  file : List Record
deriving DecidableEq, Repr

/-- `Store.persistSnapshot` from store.go, successful-write path: skip
(leaving marker and file untouched) when `gen > 0 && gen <= s.persisted`,
else atomically replace the file and set the marker. I/O failures leave
both unchanged and are not modelled. -/
def persistSnapshot (ps : PersistState) (all : List Record) (gen : Nat) : PersistState :=
  if 0 < gen ∧ gen ≤ ps.persisted then ps
  else { persisted := gen, file := all }

/-- A sequence of persist attempts `(snapshot, generation)` completing in
list order (the persistence lock serializes them). -/
def persistMany (ps : PersistState) (attempts : List (List Record × Nat)) : PersistState :=
  attempts.foldl (fun p a => persistSnapshot p a.1 a.2) ps

/-- In-memory store plus its durable state, for the public mutation methods
that apply and then persist. -/
structure FullState where
  store : Store
  ps : PersistState
deriving DecidableEq, Repr

/-- `Store.Upsert` from store.go: apply, then persist the snapshot. -/
def FullState.Upsert (fs : FullState) (r : Record) : FullState × Option StoreErr :=
  match applyUpsert fs.store r with
  | (s', Except.error e) => ({ fs with store := s' }, some e)
  | (s', Except.ok (snap, gen)) =>
      ({ store := s', ps := persistSnapshot fs.ps snap gen }, none)

/-- `Store.Delete` from store.go. -/
def FullState.Delete (fs : FullState) (name qtype value : String) :
    FullState × Option StoreErr :=
  match applyDelete fs.store name qtype value with
  | (s', Except.error e) => ({ fs with store := s' }, some e)
  | (s', Except.ok (snap, gen)) =>
      ({ store := s', ps := persistSnapshot fs.ps snap gen }, none)

/-- `Store.DeleteByType` from store.go. -/
def FullState.DeleteByType (fs : FullState) (name qtype : String) :
    FullState × Option StoreErr :=
  match applyDeleteByType fs.store name qtype with
  | (s', Except.error e) => ({ fs with store := s' }, some e)
  | (s', Except.ok (snap, gen)) =>
      ({ store := s', ps := persistSnapshot fs.ps snap gen }, none)

/-- `Store.DeleteAll` from store.go. -/
def FullState.DeleteAll (fs : FullState) (name : String) :
    FullState × Option StoreErr :=
  match applyDeleteAll fs.store name with
  | (s', Except.error e) => ({ fs with store := s' }, some e)
  | (s', Except.ok (snap, gen)) =>
      ({ store := s', ps := persistSnapshot fs.ps snap gen }, none)

/-- `Store.loadFromBytes` from store.go, after JSON decoding: rebuild the
index map from the flat record list, grouping by lowercase name in order. -/
def loadFromBytes (rs : List Record) : List (String × List Record) :=
  rs.foldl (fun m r =>
    let key := strLower r.name
    setList m key (getList m key ++ [r])) []

/-! ## Resolution engine (DNS handler source) -/

def maxCNAMEHops : Nat := 10

/-- `dns.RcodeSuccess`. -/
def rcodeSuccess : Nat := 0

/-- `dns.RcodeNameError` (NXDOMAIN). -/
def rcodeNameError : Nat := 3

/-- The wire resource record produced by `Record.ToRR`, restricted to the
header fields plus the single value the supported types carry (the
priority/weight/port/flag/tag extras play no role in any claim). -/
structure RR where
  name : String
  rtype : String
  ttl : Nat
  value : String
deriving DecidableEq, Repr

/-- `Record.ToRR` from record.go: conversion succeeds exactly when the type
is one of the nine supported uppercase names (`dns.StringToType` is zero on
unknown names, and the switch rejects every known type outside the nine). -/
def toRR (r : Record) : Option RR :=
  if supportedTypes.contains r.type then
    some { name := r.name, rtype := r.type, ttl := r.ttl, value := r.value }
  else none

/-- The synthesized authority SOA of the handler's `soa` method. -/
structure SOA where
  zone : String
  ns : String
  mbox : String
  serial : Nat
  refresh : Nat
  retry : Nat
  expire : Nat
  minttl : Nat
  ttl : Nat
deriving DecidableEq, Repr

/-- The handler's `soa(zone)`; `serial` is `time.Now().Unix()`, passed in as
`now`. -/
def soa (zone : String) (now : Nat) : SOA :=
  { zone := zone, ns := "ns1." ++ zone, mbox := "hostmaster." ++ zone,
    serial := now, refresh := 7200, retry := 1800, expire := 86400,
    minttl := 300, ttl := 300 }

/-- The terminal outcome of one `ServeDNS` call: delegate to the next plugin,
or write a response with the given rcode, answer section and authority
section. -/
inductive Outcome where
  | passthrough
  | response (rcode : Nat) (answer : List RR) (authority : List SOA)
deriving DecidableEq, Repr

/-- `filterByType` from the handler source (qtype modelled by its
`dns.TypeToString` name). -/
def filterByType (records : List Record) (typeName : String) : List Record :=
  records.filter (fun r => equalFold r.type typeName)

/-- Model of coredns `plugin.Name.Matches`: the query name equals the zone or
is a subdomain of it (label-aligned suffix), case-insensitively. -/
def nameMatches (zone qname : String) : Bool :=
  let z := strLower zone
  let q := strLower qname
  z == q || strEndsWith q ("." ++ z) || z == "."

/-- Model of coredns `plugin.Zones.Matches`: the longest configured zone the
query name falls in, if any. -/
def zonesMatches (zones : List String) (qname : String) : Option String :=
  zones.foldl (fun acc z =>
    if nameMatches z qname then
      match acc with
      | none => some z
      | some b => if b.length < z.length then some z else acc
    else acc) none

/-- Model of coredns `fall.F.Through`: whether the query name falls in one of
the configured fallthrough zones. -/
def fallThrough (fallZones : List String) (qname : String) : Bool :=
  fallZones.any (fun z => nameMatches z qname)

/-- The handler state: configured zones, the store, and the fallthrough zone
set (`Next` is the delegation target, represented by `Outcome.passthrough`).
The Go type is named `DynUpdate` like the package; renamed here to avoid the
namespace clash. -/
structure Handler where
  zones : List String
  store : Store
  fall : List String

/-- The body of `chaseCNAME`, structurally recursive on the number of
remaining hops; `chaseCNAME` below recovers the source's depth-counter
signature (`fuel = maxCNAMEHops + 1 - depth`, so `fuel = 0` is exactly the
source's `depth > maxCNAMEHops` stop). -/
def chaseGo (st : Store) (fuel : Nat) (target qtypeName : String) : List RR :=
  match fuel with
  | 0 => []
  | n + 1 =>
    let allRecords := st.getAll target
    if allRecords.isEmpty then []
    else
      let typeRecords := filterByType allRecords qtypeName
      if !typeRecords.isEmpty then typeRecords.filterMap toRR
      else
        match filterByType allRecords "CNAME" with
        | [] => []
        | c :: _ =>
          match toRR c with
          | none => []
          | some rr => rr :: chaseGo st n c.value qtypeName

/-- `chaseCNAME` from the handler source: follow CNAME chains up to
`maxCNAMEHops` depth (the entry call uses `depth = 1`). -/
def chaseCNAME (st : Store) (target qtypeName : String) (depth : Nat) : List RR :=
  chaseGo st (maxCNAMEHops + 1 - depth) target qtypeName

/-- `ServeDNS` from the handler source. `rawQName` is the question name as
received; coredns `request.Request.Name()` lowercases it, modelled by the
initial `toLower`. The metrics counters and the response writer are
side-channel plumbing and not modelled. -/
def serveDNS (d : Handler) (rawQName qtypeName : String) (now : Nat) : Outcome :=
  let qname := strLower rawQName
  match zonesMatches d.zones qname with
  | none => Outcome.passthrough
  | some zone =>
    let allRecords := d.store.getAll qname
    if allRecords.isEmpty then
      if fallThrough d.fall qname then Outcome.passthrough
      else Outcome.response rcodeNameError [] [soa zone now]
    else
      let typeRecords := filterByType allRecords qtypeName
      if !typeRecords.isEmpty then
        Outcome.response rcodeSuccess (typeRecords.filterMap toRR) []
      else
        if qtypeName == "A" || qtypeName == "AAAA" then
          match filterByType allRecords "CNAME" with
          | c :: _ =>
            match toRR c with
            | some rr =>
                Outcome.response rcodeSuccess
                  (rr :: chaseCNAME d.store c.value qtypeName 1) []
            | none => Outcome.response rcodeSuccess [] [soa zone now]
          | [] => Outcome.response rcodeSuccess [] [soa zone now]
        else Outcome.response rcodeSuccess [] [soa zone now]

/-! ## Characterization lemmas for the mutation operations -/

lemma applyUpsert_createOnly_found (s : Store) (r : Record)
    (h1 : s.syncPolicy = SyncPolicy.createOnly)
    (h2 : (matchIdx (getList s.records (strLower r.name)) r).isSome = true) :
    applyUpsert s r = (s, Except.error StoreErr.policyDenied) := by
  unfold applyUpsert
  simp [h1, h2]

lemma applyUpsert_updateOnly_notfound (s : Store) (r : Record)
    (h1 : s.syncPolicy = SyncPolicy.updateOnly)
    (h2 : matchIdx (getList s.records (strLower r.name)) r = none) :
    applyUpsert s r = (s, Except.error StoreErr.policyDenied) := by
  unfold applyUpsert
  simp [h1, h2]

lemma applyUpsert_found (s : Store) (r : Record) (i : Nat)
    (h1 : s.syncPolicy ≠ SyncPolicy.createOnly)
    (h2 : matchIdx (getList s.records (strLower r.name)) r = some i) :
    applyUpsert s r =
      ({ s with
          records := setList s.records (strLower r.name)
            ((getList s.records (strLower r.name)).set i r),
          generation := s.generation + 1 },
       Except.ok
         (collect (setList s.records (strLower r.name)
            ((getList s.records (strLower r.name)).set i r)),
          s.generation + 1)) := by
  unfold applyUpsert
  have hb : (s.syncPolicy == SyncPolicy.createOnly) = false := by
    simp [beq_eq_false_iff_ne, h1]
  simp [hb, h2]

lemma applyUpsert_notfound_ok (s : Store) (r : Record)
    (h1 : s.syncPolicy ≠ SyncPolicy.updateOnly)
    (h2 : matchIdx (getList s.records (strLower r.name)) r = none)
    (hcap : s.maxRecords = 0 ∨ countStore s.records < s.maxRecords) :
    applyUpsert s r =
      ({ s with
          records := setList s.records (strLower r.name)
            (getList s.records (strLower r.name) ++ [r]),
          generation := s.generation + 1 },
       Except.ok
         (collect (setList s.records (strLower r.name)
            (getList s.records (strLower r.name) ++ [r])),
          s.generation + 1)) := by
  unfold applyUpsert
  have hb : (s.syncPolicy == SyncPolicy.updateOnly) = false := by
    simp [beq_eq_false_iff_ne, h1]
  have hc : (0 < s.maxRecords && s.maxRecords ≤ countStore s.records) = false := by
    rcases hcap with h | h
    · simp [h]
    · simp [Nat.not_le.mpr h]
  simp [hb, h2, hc]

lemma applyUpsert_notfound_capacity (s : Store) (r : Record)
    (h1 : s.syncPolicy ≠ SyncPolicy.updateOnly)
    (h2 : matchIdx (getList s.records (strLower r.name)) r = none)
    (h3 : 0 < s.maxRecords) (h4 : s.maxRecords ≤ countStore s.records) :
    applyUpsert s r = (s, Except.error StoreErr.capacityExceeded) := by
  unfold applyUpsert
  have hb : (s.syncPolicy == SyncPolicy.updateOnly) = false := by
    simp [beq_eq_false_iff_ne, h1]
  simp [hb, h2, h3, h4]

lemma applyDelete_denied (s : Store) (name qtype value : String)
    (h : s.syncPolicy ≠ SyncPolicy.sync) :
    applyDelete s name qtype value = (s, Except.error StoreErr.policyDenied) := by
  unfold applyDelete
  simp [bne_iff_ne, h]

lemma applyDelete_sync (s : Store) (name qtype value : String)
    (h : s.syncPolicy = SyncPolicy.sync) :
    exOk (applyDelete s name qtype value).2 = true ∧
      (applyDelete s name qtype value).1.generation = s.generation + 1 := by
  unfold applyDelete
  simp [h, exOk]

lemma applyDeleteByType_denied (s : Store) (name qtype : String)
    (h : s.syncPolicy ≠ SyncPolicy.sync) :
    applyDeleteByType s name qtype = (s, Except.error StoreErr.policyDenied) := by
  unfold applyDeleteByType
  simp [bne_iff_ne, h]

lemma applyDeleteByType_sync (s : Store) (name qtype : String)
    (h : s.syncPolicy = SyncPolicy.sync) :
    exOk (applyDeleteByType s name qtype).2 = true ∧
      (applyDeleteByType s name qtype).1.generation = s.generation + 1 := by
  unfold applyDeleteByType
  simp [h, exOk]

lemma applyDeleteAll_denied (s : Store) (name : String)
    (h : s.syncPolicy ≠ SyncPolicy.sync) :
    applyDeleteAll s name = (s, Except.error StoreErr.policyDenied) := by
  unfold applyDeleteAll
  simp [bne_iff_ne, h]

lemma applyDeleteAll_sync (s : Store) (name : String)
    (h : s.syncPolicy = SyncPolicy.sync) :
    exOk (applyDeleteAll s name).2 = true ∧
      (applyDeleteAll s name).1.generation = s.generation + 1 := by
  unfold applyDeleteAll
  simp [h, exOk]

lemma FullState.Upsert_of_err (fs : FullState) (r : Record) (e : StoreErr)
    (h : applyUpsert fs.store r = (fs.store, Except.error e)) :
    fs.Upsert r = (fs, some e) := by
  unfold FullState.Upsert
  rw [h]

lemma FullState.Upsert_of_ok (fs : FullState) (r : Record) (s' : Store)
    (snap : List Record) (gen : Nat)
    (h : applyUpsert fs.store r = (s', Except.ok (snap, gen))) :
    fs.Upsert r = ({ store := s', ps := persistSnapshot fs.ps snap gen }, none) := by
  unfold FullState.Upsert
  rw [h]

lemma FullState.Delete_of_err (fs : FullState) (name qtype value : String) (e : StoreErr)
    (h : applyDelete fs.store name qtype value = (fs.store, Except.error e)) :
    fs.Delete name qtype value = (fs, some e) := by
  unfold FullState.Delete
  rw [h]

lemma FullState.DeleteByType_of_err (fs : FullState) (name qtype : String) (e : StoreErr)
    (h : applyDeleteByType fs.store name qtype = (fs.store, Except.error e)) :
    fs.DeleteByType name qtype = (fs, some e) := by
  unfold FullState.DeleteByType
  rw [h]

lemma FullState.DeleteAll_of_err (fs : FullState) (name : String) (e : StoreErr)
    (h : applyDeleteAll fs.store name = (fs.store, Except.error e)) :
    fs.DeleteAll name = (fs, some e) := by
  unfold FullState.DeleteAll
  rw [h]

/-- C1: a persist attempt with `0 < gen ≤ persisted` is a no-op on marker and
file; a persist of a newer generation sets the marker to it; across any
completion order of positive-generation attempts the marker is
non-decreasing; and it never exceeds a bound dominating every attempt's
generation (so `persisted ≤ generation` is maintained). -/
theorem persisted_marker_never_regresses :
    (∀ (ps : PersistState) (all : List Record) (gen : Nat),
       0 < gen → gen ≤ ps.persisted → persistSnapshot ps all gen = ps) ∧
    (∀ (ps : PersistState) (all : List Record) (gen : Nat),
       ps.persisted < gen →
       (persistSnapshot ps all gen).persisted = gen ∧
         (persistSnapshot ps all gen).file = all) ∧
    (∀ (ps : PersistState) (attempts : List (List Record × Nat)),
       (∀ a ∈ attempts, 0 < a.2) →
       ps.persisted ≤ (persistMany ps attempts).persisted) ∧
    (∀ (ps : PersistState) (attempts : List (List Record × Nat)) (G : Nat),
       ps.persisted ≤ G → (∀ a ∈ attempts, a.2 ≤ G) →
       (persistMany ps attempts).persisted ≤ G) := by
  have hstep_mono : ∀ (ps : PersistState) (all : List Record) (gen : Nat),
      0 < gen → ps.persisted ≤ (persistSnapshot ps all gen).persisted := by
    intro ps all gen hpos
    unfold persistSnapshot
    split
    · exact Nat.le_refl _
    · rename_i hcond
      have : ps.persisted < gen := by
        by_contra hlt
        exact hcond ⟨hpos, Nat.le_of_not_lt hlt⟩
      exact Nat.le_of_lt this
  have hstep_bound : ∀ (ps : PersistState) (all : List Record) (gen : Nat) (G : Nat),
      ps.persisted ≤ G → gen ≤ G → (persistSnapshot ps all gen).persisted ≤ G := by
    intro ps all gen G hle hgen
    unfold persistSnapshot
    split
    · exact hle
    · exact hgen
  refine ⟨?_, ?_, ?_, ?_⟩
  · intro ps all gen h1 h2
    unfold persistSnapshot
    rw [if_pos ⟨h1, h2⟩]
  · intro ps all gen h
    unfold persistSnapshot
    rw [if_neg (fun hc => Nat.not_le.mpr h hc.2)]
    exact ⟨rfl, rfl⟩
  · intro ps attempts
    induction attempts generalizing ps with
    | nil => intro _; exact Nat.le_refl _
    | cons a rest ih =>
        intro h
        have h1 := hstep_mono ps a.1 a.2 (h a (List.mem_cons_self a rest))
        have h2 := ih (persistSnapshot ps a.1 a.2)
          (fun b hb => h b (List.mem_cons_of_mem a hb))
        exact Nat.le_trans h1 h2
  · intro ps attempts G
    induction attempts generalizing ps with
    | nil => intro h _; exact h
    | cons a rest ih =>
        intro h hall
        exact ih (persistSnapshot ps a.1 a.2)
          (hstep_bound ps a.1 a.2 G h (hall a (List.mem_cons_self a rest)))
          (fun b hb => hall b (List.mem_cons_of_mem a hb))

/-- Witness for C1 at concrete inputs. -/
theorem persisted_marker_never_regresses_witness :
    persistSnapshot ⟨5, []⟩ [] 3 = ⟨5, []⟩ ∧
    (persistSnapshot ⟨5, []⟩ [] 7).persisted = 7 ∧
    (5 : Nat) ≤ (persistMany ⟨5, []⟩ [([], 7), ([], 6)]).persisted ∧
    (persistMany ⟨5, []⟩ [([], 7), ([], 6)]).persisted ≤ 9 :=
  ⟨persisted_marker_never_regresses.1 ⟨5, []⟩ [] 3 (by decide) (by decide),
   (persisted_marker_never_regresses.2.1 ⟨5, []⟩ [] 7 (by decide)).1,
   persisted_marker_never_regresses.2.2.1 ⟨5, []⟩ [([], 7), ([], 6)] (by decide),
   persisted_marker_never_regresses.2.2.2 ⟨5, []⟩ [([], 7), ([], 6)] 9 (by decide)
     (by decide)⟩

/-! ## Concrete fixtures used by witnesses -/

def wRecA : Record := { name := "a.example.org.", type := "TXT", ttl := 300, value := "x" }

def wRecA2 : Record := { name := "a.example.org.", type := "TXT", ttl := 600, value := "x" }

def wRecB : Record := { name := "b.example.org.", type := "TXT", ttl := 300, value := "y" }

def wCapStore : Store :=
  { records := [("a.example.org.", [wRecA])], maxRecords := 1,
    syncPolicy := SyncPolicy.sync, generation := 1 }

def wPS : PersistState := { persisted := 1, file := [wRecA] }

def wFSCreate : FullState :=
  { store := { records := [("a.example.org.", [wRecA])], maxRecords := 0,
               syncPolicy := SyncPolicy.createOnly, generation := 1 },
    ps := wPS }

def wFSUpdate : FullState :=
  { store := { records := [("a.example.org.", [wRecA])], maxRecords := 0,
               syncPolicy := SyncPolicy.updateOnly, generation := 1 },
    ps := wPS }

def wFSUpsertOnly : FullState :=
  { store := { records := [("a.example.org.", [wRecA])], maxRecords := 0,
               syncPolicy := SyncPolicy.upsertOnly, generation := 1 },
    ps := wPS }

/-- C7: the generation counter is incremented exactly once per successful
mutation (upsert insert or update, delete, delete-by-type, delete-all) —
hence strictly increasing across successful mutations — and a mutation
rejected by policy or capacity leaves the whole store, counter included,
unchanged. -/
theorem generation_incremented_once_per_success
    (s : Store) (r : Record) (name qtype value : String) :
    (exOk (applyUpsert s r).2 = true →
       (applyUpsert s r).1.generation = s.generation + 1) ∧
    (exOk (applyUpsert s r).2 = false → (applyUpsert s r).1 = s) ∧
    (exOk (applyDelete s name qtype value).2 = true →
       (applyDelete s name qtype value).1.generation = s.generation + 1) ∧
    (exOk (applyDelete s name qtype value).2 = false →
       (applyDelete s name qtype value).1 = s) ∧
    (exOk (applyDeleteByType s name qtype).2 = true →
       (applyDeleteByType s name qtype).1.generation = s.generation + 1) ∧
    (exOk (applyDeleteByType s name qtype).2 = false →
       (applyDeleteByType s name qtype).1 = s) ∧
    (exOk (applyDeleteAll s name).2 = true →
       (applyDeleteAll s name).1.generation = s.generation + 1) ∧
    (exOk (applyDeleteAll s name).2 = false → (applyDeleteAll s name).1 = s) := by
  have hU : (exOk (applyUpsert s r).2 = true →
      (applyUpsert s r).1.generation = s.generation + 1) ∧
      (exOk (applyUpsert s r).2 = false → (applyUpsert s r).1 = s) := by
    cases hm : matchIdx (getList s.records (strLower r.name)) r with
    | some i =>
        by_cases hp : s.syncPolicy = SyncPolicy.createOnly
        · rw [applyUpsert_createOnly_found s r hp (by rw [hm]; rfl)]
          exact ⟨fun h => by simp [exOk] at h, fun _ => rfl⟩
        · rw [applyUpsert_found s r i hp hm]
          exact ⟨fun _ => rfl, fun h => by simp [exOk] at h⟩
    | none =>
        by_cases hp : s.syncPolicy = SyncPolicy.updateOnly
        · rw [applyUpsert_updateOnly_notfound s r hp hm]
          exact ⟨fun h => by simp [exOk] at h, fun _ => rfl⟩
        · by_cases hcap : 0 < s.maxRecords ∧ s.maxRecords ≤ countStore s.records
          · rw [applyUpsert_notfound_capacity s r hp hm hcap.1 hcap.2]
            exact ⟨fun h => by simp [exOk] at h, fun _ => rfl⟩
          · have hcap' : s.maxRecords = 0 ∨ countStore s.records < s.maxRecords := by
              omega
            rw [applyUpsert_notfound_ok s r hp hm hcap']
            exact ⟨fun _ => rfl, fun h => by simp [exOk] at h⟩
  have hD : (exOk (applyDelete s name qtype value).2 = true →
      (applyDelete s name qtype value).1.generation = s.generation + 1) ∧
      (exOk (applyDelete s name qtype value).2 = false →
        (applyDelete s name qtype value).1 = s) := by
    by_cases hp : s.syncPolicy = SyncPolicy.sync
    · have h := applyDelete_sync s name qtype value hp
      exact ⟨fun _ => h.2, fun hfalse => by simp [h.1] at hfalse⟩
    · rw [applyDelete_denied s name qtype value hp]
      exact ⟨fun h => by simp [exOk] at h, fun _ => rfl⟩
  have hT : (exOk (applyDeleteByType s name qtype).2 = true →
      (applyDeleteByType s name qtype).1.generation = s.generation + 1) ∧
      (exOk (applyDeleteByType s name qtype).2 = false →
        (applyDeleteByType s name qtype).1 = s) := by
    by_cases hp : s.syncPolicy = SyncPolicy.sync
    · have h := applyDeleteByType_sync s name qtype hp
      exact ⟨fun _ => h.2, fun hfalse => by simp [h.1] at hfalse⟩
    · rw [applyDeleteByType_denied s name qtype hp]
      exact ⟨fun h => by simp [exOk] at h, fun _ => rfl⟩
  have hA : (exOk (applyDeleteAll s name).2 = true →
      (applyDeleteAll s name).1.generation = s.generation + 1) ∧
      (exOk (applyDeleteAll s name).2 = false → (applyDeleteAll s name).1 = s) := by
    by_cases hp : s.syncPolicy = SyncPolicy.sync
    · have h := applyDeleteAll_sync s name hp
      exact ⟨fun _ => h.2, fun hfalse => by simp [h.1] at hfalse⟩
    · rw [applyDeleteAll_denied s name hp]
      exact ⟨fun h => by simp [exOk] at h, fun _ => rfl⟩
  exact ⟨hU.1, hU.2, hD.1, hD.2, hT.1, hT.2, hA.1, hA.2⟩

/-- Witness for C7 at concrete inputs. -/
theorem generation_incremented_once_per_success_witness :
    (applyUpsert wCapStore wRecA2).1.generation = wCapStore.generation + 1 ∧
    (applyDelete wCapStore "a.example.org." "TXT" "x").1.generation
      = wCapStore.generation + 1 ∧
    (applyUpsert wCapStore wRecB).1 = wCapStore :=
  ⟨(generation_incremented_once_per_success wCapStore wRecA2 "" "" "").1 (by decide),
   (generation_incremented_once_per_success wCapStore wRecA2
      "a.example.org." "TXT" "x").2.2.1 (by decide),
   (generation_incremented_once_per_success wCapStore wRecB "" "" "").2.1 (by decide)⟩

/-- C6: with a configured positive maximum, an upsert that would insert a new
identity into a full store fails with `CapacityExceeded` and leaves the
store unchanged, while an upsert updating an existing identity succeeds
(and bumps the generation) regardless of the limit. -/
theorem capacity_blocks_new_inserts_only (s : Store) (r : Record)
    (hmax : 0 < s.maxRecords) :
    (s.maxRecords ≤ countStore s.records →
       matchIdx (getList s.records (strLower r.name)) r = none →
       s.syncPolicy ≠ SyncPolicy.updateOnly →
       applyUpsert s r = (s, Except.error StoreErr.capacityExceeded)) ∧
    (∀ i, matchIdx (getList s.records (strLower r.name)) r = some i →
       s.syncPolicy ≠ SyncPolicy.createOnly →
       exOk (applyUpsert s r).2 = true ∧
         (applyUpsert s r).1.generation = s.generation + 1) := by
  constructor
  · intro hfull hm hp
    exact applyUpsert_notfound_capacity s r hp hm hmax hfull
  · intro i hm hp
    rw [applyUpsert_found s r i hp hm]
    exact ⟨rfl, rfl⟩

/-- Witness for C6 at concrete inputs: a full one-record store rejects a new
identity but accepts an update of the existing one. -/
theorem capacity_blocks_new_inserts_only_witness :
    applyUpsert wCapStore wRecB = (wCapStore, Except.error StoreErr.capacityExceeded) ∧
    exOk (applyUpsert wCapStore wRecA2).2 = true :=
  ⟨(capacity_blocks_new_inserts_only wCapStore wRecB (by decide)).1
     (by decide) (by decide) (by decide),
   ((capacity_blocks_new_inserts_only wCapStore wRecA2 (by decide)).2 0
     (by decide) (by decide)).1⟩

/-- C3: the mutation policy gates every mutation before any state change:
under CreateOnly a new-identity upsert succeeds and an existing-identity
upsert is policy-denied; under UpdateOnly the reverse; under UpsertOnly both
upsert forms succeed and all three delete forms are policy-denied; every
policy-denied operation returns the full state (record index, generation
counter, persisted marker and file) unchanged. -/
theorem policy_gates_every_mutation (fs : FullState) (r : Record)
    (name qtype value : String) :
    (fs.store.syncPolicy = SyncPolicy.createOnly →
       (matchIdx (getList fs.store.records (strLower r.name)) r = none →
          (fs.store.maxRecords = 0 ∨
             countStore fs.store.records < fs.store.maxRecords) →
          (fs.Upsert r).2 = none) ∧
       (∀ i, matchIdx (getList fs.store.records (strLower r.name)) r = some i →
          fs.Upsert r = (fs, some StoreErr.policyDenied))) ∧
    (fs.store.syncPolicy = SyncPolicy.updateOnly →
       (∀ i, matchIdx (getList fs.store.records (strLower r.name)) r = some i →
          (fs.Upsert r).2 = none) ∧
       (matchIdx (getList fs.store.records (strLower r.name)) r = none →
          fs.Upsert r = (fs, some StoreErr.policyDenied))) ∧
    (fs.store.syncPolicy = SyncPolicy.upsertOnly →
       (matchIdx (getList fs.store.records (strLower r.name)) r = none →
          (fs.store.maxRecords = 0 ∨
             countStore fs.store.records < fs.store.maxRecords) →
          (fs.Upsert r).2 = none) ∧
       (∀ i, matchIdx (getList fs.store.records (strLower r.name)) r = some i →
          (fs.Upsert r).2 = none) ∧
       fs.Delete name qtype value = (fs, some StoreErr.policyDenied) ∧
       fs.DeleteByType name qtype = (fs, some StoreErr.policyDenied) ∧
       fs.DeleteAll name = (fs, some StoreErr.policyDenied)) := by
  refine ⟨fun hp => ⟨?_, ?_⟩, fun hp => ⟨?_, ?_⟩, fun hp => ⟨?_, ?_, ?_, ?_, ?_⟩⟩
  · intro hm hcap
    rw [FullState.Upsert_of_ok fs r _ _ _
      (applyUpsert_notfound_ok fs.store r (by simp [hp]) hm hcap)]
  · intro i hm
    exact FullState.Upsert_of_err fs r _
      (applyUpsert_createOnly_found fs.store r hp (by rw [hm]; rfl))
  · intro i hm
    rw [FullState.Upsert_of_ok fs r _ _ _
      (applyUpsert_found fs.store r i (by simp [hp]) hm)]
  · intro hm
    exact FullState.Upsert_of_err fs r _
      (applyUpsert_updateOnly_notfound fs.store r hp hm)
  · intro hm hcap
    rw [FullState.Upsert_of_ok fs r _ _ _
      (applyUpsert_notfound_ok fs.store r (by simp [hp]) hm hcap)]
  · intro i hm
    rw [FullState.Upsert_of_ok fs r _ _ _
      (applyUpsert_found fs.store r i (by simp [hp]) hm)]
  · exact FullState.Delete_of_err fs name qtype value _
      (applyDelete_denied fs.store name qtype value (by simp [hp]))
  · exact FullState.DeleteByType_of_err fs name qtype _
      (applyDeleteByType_denied fs.store name qtype (by simp [hp]))
  · exact FullState.DeleteAll_of_err fs name _
      (applyDeleteAll_denied fs.store name (by simp [hp]))

/-- Witness for C3 at concrete inputs, one per policy mode. -/
theorem policy_gates_every_mutation_witness :
    (wFSCreate.Upsert wRecB).2 = none ∧
    wFSCreate.Upsert wRecA2 = (wFSCreate, some StoreErr.policyDenied) ∧
    (wFSUpdate.Upsert wRecA2).2 = none ∧
    wFSUpdate.Upsert wRecB = (wFSUpdate, some StoreErr.policyDenied) ∧
    (wFSUpsertOnly.Upsert wRecB).2 = none ∧
    (wFSUpsertOnly.Upsert wRecA2).2 = none ∧
    wFSUpsertOnly.Delete "a.example.org." "TXT" "x"
      = (wFSUpsertOnly, some StoreErr.policyDenied) ∧
    wFSUpsertOnly.DeleteByType "a.example.org." "TXT"
      = (wFSUpsertOnly, some StoreErr.policyDenied) ∧
    wFSUpsertOnly.DeleteAll "a.example.org."
      = (wFSUpsertOnly, some StoreErr.policyDenied) := by
  have hc := policy_gates_every_mutation wFSCreate wRecB "" "" ""
  have hc2 := policy_gates_every_mutation wFSCreate wRecA2 "" "" ""
  have hu := policy_gates_every_mutation wFSUpdate wRecA2 "" "" ""
  have hu2 := policy_gates_every_mutation wFSUpdate wRecB "" "" ""
  have ho := policy_gates_every_mutation wFSUpsertOnly wRecB
    "a.example.org." "TXT" "x"
  have ho2 := policy_gates_every_mutation wFSUpsertOnly wRecA2 "" "" ""
  exact ⟨(hc.1 rfl).1 (by decide) (Or.inl rfl),
         (hc2.1 rfl).2 0 (by decide),
         (hu.2.1 rfl).1 0 (by decide),
         (hu2.2.1 rfl).2 (by decide),
         (ho.2.2 rfl).1 (by decide) (Or.inl rfl),
         (ho2.2.2 rfl).2.1 0 (by decide),
         (ho.2.2 rfl).2.2.1,
         (ho.2.2 rfl).2.2.2.1,
         (ho.2.2 rfl).2.2.2.2⟩

/-! ## Round trip: persist then reload (C8) -/

lemma collect_setList_append (m : List (String × List Record)) (k : String)
    (r : Record) :
    (collect (setList m k (getList m k ++ [r]))).Perm (r :: collect m) := by
  induction m with
  | nil =>
      simp [setList, getList, collect]
  | cons p rest ih =>
      obtain ⟨k1, g⟩ := p
      by_cases h : (k1 == k) = true
      · rw [show setList ((k1, g) :: rest) k (getList ((k1, g) :: rest) k ++ [r])
              = (k1, g ++ [r]) :: rest from by simp [setList, getList, h]]
        show ((g ++ [r]) ++ collect rest).Perm (r :: (g ++ collect rest))
        rw [List.append_assoc]
        exact List.perm_middle
      · rw [show setList ((k1, g) :: rest) k (getList ((k1, g) :: rest) k ++ [r])
              = (k1, g) :: setList rest k (getList rest k ++ [r]) from by
                simp [setList, getList, h]]
        show (g ++ collect (setList rest k (getList rest k ++ [r]))).Perm
          (r :: (g ++ collect rest))
        exact (ih.append_left g).trans List.perm_middle

lemma loadFromBytes_perm_aux (rs : List Record)
    (m : List (String × List Record)) :
    (collect (rs.foldl (fun m r =>
        setList m (strLower r.name) (getList m (strLower r.name) ++ [r])) m)).Perm
      (collect m ++ rs) := by
  induction rs generalizing m with
  | nil => simp
  | cons r rs ih =>
      exact (ih _).trans
        (((collect_setList_append m (strLower r.name) r).append_right rs).trans
          List.perm_middle.symm)

lemma loadFromBytes_perm (rs : List Record) :
    (collect (loadFromBytes rs)).Perm rs := by
  have h := loadFromBytes_perm_aux rs []
  simpa [loadFromBytes, collect] using h

/-- C8: persist-then-reload round trip — rebuilding a store from the record
list that `persistSnapshot` serializes (the decoded content of the JSON
file) yields `list()` output containing exactly the records of the original
store, order-insensitively. -/
theorem persist_reload_roundtrip (s : Store) (max gen : Nat) (pol : SyncPolicy) :
    (Store.list { records := loadFromBytes s.list, maxRecords := max,
                  syncPolicy := pol, generation := gen }).Perm s.list :=
  loadFromBytes_perm s.list

/-! ## Upsert idempotence (C2) -/

/-- The record identity of the spec: name and type case-insensitively,
value exactly. -/
def identityMatches (x r : Record) : Bool :=
  equalFold x.name r.name && identMatch x r

/-- Find-then-set/append of `applyUpsert`, fused into one pass (proved equal
to the source's two-pass form in `upsertList_eq`). -/
def upsertList (l : List Record) (r : Record) : List Record :=
  match l with
  | [] => [r]
  | x :: rest => if identMatch x r then r :: rest else x :: upsertList rest r

/-- Two records in one name's collection never share a (type, value)
identity — the store's uniqueness invariant (spec §3). -/
def distinctIdent (a b : Record) : Prop :=
  ¬(equalFold a.type b.type = true ∧ a.value = b.value)

instance decidableDistinctIdent : ∀ a b : Record, Decidable (distinctIdent a b) :=
  fun a b => by unfold distinctIdent; infer_instance

/-- Every record sits in the bucket of its lowercased name — maintained by
construction in `applyUpsert` and `loadFromBytes`. -/
def wellKeyed (m : List (String × List Record)) : Prop :=
  ∀ p ∈ m, ∀ x ∈ p.2, strLower x.name = p.1

/-- Uniqueness invariant, per bucket. -/
def uniqueIdentities (m : List (String × List Record)) : Prop :=
  ∀ p ∈ m, p.2.Pairwise distinctIdent

lemma identMatch_self (r : Record) : identMatch r r = true := by
  simp [identMatch, equalFold]

lemma equalFold_self (s : String) : equalFold s s = true := by
  simp [equalFold]

lemma upsertList_eq (l : List Record) (r : Record) :
    (match matchIdx l r with
     | some i => l.set i r
     | none => l ++ [r]) = upsertList l r := by
  induction l with
  | nil => simp [matchIdx, upsertList]
  | cons x rest ih =>
      by_cases h : identMatch x r = true
      · simp [matchIdx, upsertList, h]
      · simp only [matchIdx, upsertList, h, Bool.false_eq_true, if_neg,
          not_false_eq_true]
        cases hm : matchIdx rest r with
        | none =>
            rw [hm] at ih
            simpa using ih
        | some i =>
            rw [hm] at ih
            simpa using ih

lemma getList_setList_self (m : List (String × List Record)) (k : String)
    (v : List Record) : getList (setList m k v) k = v := by
  induction m with
  | nil => simp [setList, getList]
  | cons p rest ih =>
      obtain ⟨k1, g⟩ := p
      by_cases h : (k1 == k) = true
      · simp [setList, getList, h]
      · simp [setList, getList, h, ih]

lemma setList_setList (m : List (String × List Record)) (k : String)
    (v w : List Record) : setList (setList m k v) k w = setList m k w := by
  induction m with
  | nil => simp [setList]
  | cons p rest ih =>
      obtain ⟨k1, g⟩ := p
      by_cases h : (k1 == k) = true
      · simp [setList, h]
      · simp [setList, h, ih]

lemma matchIdx_upsertList_isSome (l : List Record) (r : Record) :
    (matchIdx (upsertList l r) r).isSome = true := by
  induction l with
  | nil => simp [upsertList, matchIdx, identMatch_self]
  | cons x rest ih =>
      by_cases h : identMatch x r = true
      · simp [upsertList, h, matchIdx, identMatch_self]
      · simp [upsertList, h, matchIdx, ih]

lemma upsertList_idem (l : List Record) (r : Record) :
    upsertList (upsertList l r) r = upsertList l r := by
  induction l with
  | nil => simp [upsertList, identMatch_self]
  | cons x rest ih =>
      by_cases h : identMatch x r = true
      · simp [upsertList, h, identMatch_self]
      · simp [upsertList, h, ih]

lemma mem_upsertList (l : List Record) (r : Record) : r ∈ upsertList l r := by
  induction l with
  | nil => simp [upsertList]
  | cons x rest ih =>
      by_cases h : identMatch x r = true
      · simp [upsertList, h]
      · simp [upsertList, h, ih]

lemma mem_collect_setList (m : List (String × List Record)) (k : String)
    (v : List Record) (x : Record) (hx : x ∈ v) : x ∈ collect (setList m k v) := by
  induction m with
  | nil => simp [setList, collect, hx]
  | cons p rest ih =>
      obtain ⟨k1, g⟩ := p
      by_cases h : (k1 == k) = true
      · simp [setList, collect, h, hx]
      · simp [setList, collect, h]
        exact Or.inr ih

/-- Two records matching the same identity match each other's identity. -/
lemma identMatch_common (x y r : Record) (h1 : identMatch x r = true)
    (h2 : identMatch y r = true) :
    equalFold x.type y.type = true ∧ x.value = y.value := by
  simp only [identMatch, Bool.and_eq_true, beq_iff_eq, equalFold] at h1 h2
  exact ⟨by simp [equalFold, h1.1, h2.1], h1.2.trans h2.2.symm⟩

lemma filter_identMatch_len_le_one (l : List Record) (r : Record)
    (h : l.Pairwise distinctIdent) :
    (l.filter (fun x => identMatch x r)).length ≤ 1 := by
  induction l with
  | nil => simp
  | cons x rest ih =>
      rcases List.pairwise_cons.mp h with ⟨hx, hrest⟩
      by_cases hm : identMatch x r = true
      · have hnil : rest.filter (fun x => identMatch x r) = [] := by
          rw [List.filter_eq_nil]
          intro y hy hmy
          exact hx y hy (identMatch_common x y r hm (by simpa using hmy))
        simp [hm, hnil]
      · simp only [List.filter_cons, hm, Bool.false_eq_true, if_neg,
          not_false_eq_true]
        exact ih hrest

lemma filter_upsertList (l : List Record) (r : Record)
    (hone : (l.filter (fun x => identMatch x r)).length ≤ 1)
    (hnames : ∀ x ∈ l, equalFold x.name r.name = true) :
    (upsertList l r).filter (fun x => identityMatches x r) = [r] := by
  induction l with
  | nil => simp [upsertList, identityMatches, identMatch_self, equalFold_self]
  | cons x rest ih =>
      by_cases hm : identMatch x r = true
      · have hcons : (List.filter (fun x => identMatch x r) (x :: rest)).length
            = (rest.filter (fun x => identMatch x r)).length + 1 := by
          simp [List.filter_cons, hm]
        have hnil : rest.filter (fun x => identMatch x r) = [] := by
          have hlen : (rest.filter (fun x => identMatch x r)).length = 0 := by
            omega
          exact List.length_eq_zero.mp hlen
        have hnil' : rest.filter (fun x => identityMatches x r) = [] := by
          rw [List.filter_eq_nil]
          intro y hy hmy
          have hy2 : identMatch y r = true := by
            simp only [identityMatches, Bool.and_eq_true] at hmy
            exact hmy.2
          have := List.filter_eq_nil.mp hnil y hy
          simp_all
        have hPr : identityMatches r r = true := by
          simp [identityMatches, identMatch_self, equalFold_self]
        rw [show upsertList (x :: rest) r = r :: rest from by simp [upsertList, hm]]
        simp [List.filter_cons, hPr, hnil']
      · have hone' : (rest.filter (fun x => identMatch x r)).length ≤ 1 := by
          simpa [List.filter_cons, hm] using hone
        have hx : identityMatches x r = false := by
          simp [identityMatches, hm]
        simp only [upsertList, hm, Bool.false_eq_true, if_neg, not_false_eq_true,
          List.filter_cons, hx]
        exact ih hone' (fun y hy => hnames y (List.mem_cons_of_mem x hy))

lemma filter_collect_nil (m : List (String × List Record)) (P : Record → Bool)
    (h : ∀ p ∈ m, p.2.filter P = []) : (collect m).filter P = [] := by
  induction m with
  | nil => simp [collect]
  | cons p rest ih =>
      obtain ⟨k1, g⟩ := p
      simp only [collect, List.filter_append]
      rw [h (k1, g) (List.mem_cons_self _ _),
        ih (fun q hq => h q (List.mem_cons_of_mem _ hq))]
      rfl

lemma filter_collect_setList (m : List (String × List Record)) (k : String)
    (v : List Record) (P : Record → Bool)
    (hnd : (m.map Prod.fst).Nodup)
    (hothers : ∀ p ∈ m, p.1 ≠ k → p.2.filter P = []) :
    (collect (setList m k v)).filter P = v.filter P := by
  induction m with
  | nil => simp [setList, collect]
  | cons p rest ih =>
      obtain ⟨k1, g⟩ := p
      rcases List.nodup_cons.mp hnd with ⟨hk1, hndrest⟩
      by_cases h : (k1 == k) = true
      · have hk : k1 = k := by simpa using h
        have hrest : (collect rest).filter P = [] := by
          apply filter_collect_nil
          intro q hq
          apply hothers q (List.mem_cons_of_mem _ hq)
          intro hqk
          apply hk1
          have hq1 : q.1 ∈ rest.map Prod.fst := List.mem_map_of_mem Prod.fst hq
          rwa [hqk, ← hk] at hq1
        rw [show setList ((k1, g) :: rest) k v = (k1, v) :: rest from by
          simp [setList, h]]
        simp only [collect, List.filter_append, hrest, List.append_nil]
      · have hg : g.filter P = [] :=
          hothers (k1, g) (List.mem_cons_self _ _) (by simpa using h)
        rw [show setList ((k1, g) :: rest) k v
              = (k1, g) :: setList rest k v from by simp [setList, h]]
        simp only [collect, List.filter_append, hg, List.nil_append]
        exact ih hndrest (fun q hq => hothers q (List.mem_cons_of_mem _ hq))

lemma getList_eq_nil_or_mem (m : List (String × List Record)) (k : String) :
    getList m k = [] ∨ (k, getList m k) ∈ m := by
  induction m with
  | nil => exact Or.inl rfl
  | cons p rest ih =>
      obtain ⟨k1, g⟩ := p
      by_cases h : (k1 == k) = true
      · right
        have hk : k1 = k := by simpa using h
        simp [getList, h, hk]
      · rcases ih with hnil | hmem
        · left
          simpa [getList, h] using hnil
        · right
          simp only [getList, h, Bool.false_eq_true, if_neg, not_false_eq_true]
          exact List.mem_cons_of_mem _ hmem

/-- `applyUpsert` under the Sync policy, expressed through `upsertList`,
provided the identity already exists or capacity does not block. -/
lemma applyUpsert_sync_eq (s : Store) (r : Record)
    (hpol : s.syncPolicy = SyncPolicy.sync)
    (hok : (matchIdx (getList s.records (strLower r.name)) r).isSome = true ∨
           s.maxRecords = 0 ∨ countStore s.records < s.maxRecords) :
    applyUpsert s r =
      ({ s with
          records := setList s.records (strLower r.name)
            (upsertList (getList s.records (strLower r.name)) r),
          generation := s.generation + 1 },
       Except.ok
         (collect (setList s.records (strLower r.name)
            (upsertList (getList s.records (strLower r.name)) r)),
          s.generation + 1)) := by
  cases hm : matchIdx (getList s.records (strLower r.name)) r with
  | some i =>
      have h : (getList s.records (strLower r.name)).set i r
          = upsertList (getList s.records (strLower r.name)) r := by
        have h0 := upsertList_eq (getList s.records (strLower r.name)) r
        rw [hm] at h0
        exact h0
      rw [applyUpsert_found s r i (by simp [hpol]) hm, h]
  | none =>
      rcases hok with hfound | hcap
      · rw [hm] at hfound
        simp at hfound
      · have h : getList s.records (strLower r.name) ++ [r]
            = upsertList (getList s.records (strLower r.name)) r := by
          have h0 := upsertList_eq (getList s.records (strLower r.name)) r
          rw [hm] at h0
          exact h0
        rw [applyUpsert_notfound_ok s r (by simp [hpol]) hm hcap, h]

/-- C2 (amended): under the Sync policy, on a store satisfying the
data-model invariants (records keyed by lowercase name with unique map keys,
per-name identity uniqueness) and whose capacity limit does not block the
first call, upserting `r` twice leaves the index exactly as after the first
call (the second call replaces the matching record in place), and the full
record list then holds exactly one record matching `r`'s identity — `r`
itself, its non-identity fields those of the (second) call's input. -/
theorem upsert_twice_idempotent (fs : FullState) (r : Record)
    (hpol : fs.store.syncPolicy = SyncPolicy.sync)
    (hcap : fs.store.maxRecords = 0 ∨
            countStore fs.store.records < fs.store.maxRecords)
    (hwk : wellKeyed fs.store.records)
    (huniq : uniqueIdentities fs.store.records)
    (hnd : (fs.store.records.map Prod.fst).Nodup) :
    ((fs.Upsert r).1.Upsert r).1.store.records = (fs.Upsert r).1.store.records ∧
    (((fs.Upsert r).1.Upsert r).1.store.list.filter
        (fun x => identityMatches x r)) = [r] := by
  set key := strLower r.name with hkey
  set m := fs.store.records with hm
  set recs := getList m key with hrecs
  set u := upsertList recs r with hu
  have h1 : applyUpsert fs.store r =
      ({ fs.store with records := setList m key u, generation := fs.store.generation + 1 },
       Except.ok (collect (setList m key u), fs.store.generation + 1)) :=
    applyUpsert_sync_eq fs.store r hpol (Or.inr hcap)
  have hfs1 := FullState.Upsert_of_ok fs r _ _ _ h1
  have hs1records : (fs.Upsert r).1.store.records = setList m key u := by
    rw [hfs1]
  have hs1pol : (fs.Upsert r).1.store.syncPolicy = SyncPolicy.sync := by
    rw [hfs1]
    exact hpol
  have hfound : (matchIdx (getList (fs.Upsert r).1.store.records key) r).isSome
      = true := by
    rw [hs1records, getList_setList_self]
    exact matchIdx_upsertList_isSome recs r
  have h2 := applyUpsert_sync_eq (fs.Upsert r).1.store r hs1pol (Or.inl hfound)
  have hfs2 := FullState.Upsert_of_ok (fs.Upsert r).1 r _ _ _ h2
  have hrec2 : ((fs.Upsert r).1.Upsert r).1.store.records = setList m key u := by
    rw [hfs2]
    show setList (fs.Upsert r).1.store.records key
        (upsertList (getList (fs.Upsert r).1.store.records key) r) = setList m key u
    rw [hs1records, getList_setList_self, hu, upsertList_idem, setList_setList]
  constructor
  · rw [hrec2, hs1records]
  · show (collect ((fs.Upsert r).1.Upsert r).1.store.records).filter
        (fun x => identityMatches x r) = [r]
    rw [hrec2]
    rw [filter_collect_setList m key u (fun x => identityMatches x r) hnd]
    · rw [hu]
      apply filter_upsertList
      · rcases getList_eq_nil_or_mem m key with hnil | hmem
        · rw [hrecs, hnil]
          simp
        · exact filter_identMatch_len_le_one recs r (huniq (key, recs) hmem)
      · intro x hx
        rcases getList_eq_nil_or_mem m key with hnil | hmem
        · rw [hrecs, hnil] at hx
          cases hx
        · have := hwk (key, recs) hmem x hx
          simp only [equalFold, beq_iff_eq]
          rw [this]
    · intro p hp hpk
      rw [List.filter_eq_nil]
      intro x hx hmx
      have hxk : strLower x.name = p.1 := hwk p hp x hx
      simp only [identityMatches, Bool.and_eq_true, equalFold, beq_iff_eq] at hmx
      exact hpk (by rw [← hxk, hmx.1])

/-- Witness for C2's amended theorem at a concrete input. -/
theorem upsert_twice_idempotent_witness :
    ((({ store := { records := [("a.example.org.", [wRecA])], maxRecords := 0,
                    syncPolicy := SyncPolicy.sync, generation := 1 },
         ps := wPS } : FullState).Upsert wRecB).1.Upsert wRecB).1.store.list.filter
      (fun x => identityMatches x wRecB) = [wRecB] :=
  (upsert_twice_idempotent
    { store := { records := [("a.example.org.", [wRecA])], maxRecords := 0,
                 syncPolicy := SyncPolicy.sync, generation := 1 },
      ps := wPS } wRecB rfl (Or.inl rfl)
    (by unfold wellKeyed; decide) (by unfold uniqueIdentities; decide)
    (by decide)).2

/-- Counterexample to C2 as stated: with a capacity limit of one and one
resident record, two upserts of a fresh identity both fail, leaving zero
(not exactly one) records of that identity. -/
theorem upsert_twice_idempotent_cex :
    ((({ store := wCapStore, ps := wPS } : FullState).Upsert
        wRecB).1.Upsert wRecB).1.store.list.filter
      (fun x => identityMatches x wRecB) = [] := by
  decide

/-! ## Record validation and the name constraints (C9, C10) -/

/-- Modelled from the spec (not the source): the name invariants of spec
section 3 — non-empty, trailing-dot-terminated, each label at most 63 bytes,
total length at most 253 bytes, no empty labels. Stated here only to compare
against what `validate` actually enforces. -/
def specNameWellFormed (name : String) : Bool :=
  !(name == "") && strEndsWith name "." &&
    ((strSplitOn name '.').dropLast.all
       (fun l => decide (0 < l.data.length) && decide (l.data.length ≤ 63))) &&
    decide (name.data.length ≤ 253)

/-- A record whose name has a 64-byte label but which `validate` accepts. -/
def cexLongLabelRec : Record :=
  { name := "aaaaaaaaaaaaaaaaaaaaaaaaaaaaaaaaaaaaaaaaaaaaaaaaaaaaaaaaaaaaaaaa.",
    type := "CNAME", ttl := 300, value := "t.example.org." }

/-- Counterexample to C9 as stated: `validate` accepts a record whose name
violates the label-length constraint (one 64-byte label), so validation does
not enforce the spec's label/length/empty-label name invariants. -/
theorem validate_name_constraints_cex :
    exOk (validate cexLongLabelRec) = true ∧
      specNameWellFormed cexLongLabelRec.name = false := by
  constructor
  · decide
  · decide

/-- C9 (amended): `validate` checks of the name only that it is non-empty
and ends in a dot — both necessary for acceptance — and for an
otherwise-valid record those two checks are also sufficient: acceptance is
independent of label lengths, total length, or empty labels. -/
theorem validate_name_checks_only_nonempty_and_dot :
    (∀ r : Record, exOk (validate r) = true →
        (r.name == "") = false ∧ strEndsWith r.name "." = true) ∧
    (∀ n : String,
        exOk (validate { name := n, type := "CNAME", ttl := 300,
                         value := "t.example.org." }) =
          (!(n == "") && strEndsWith n ".")) := by
  constructor
  · intro r h
    unfold validate at h
    by_cases h1 : (r.name == "") = true
    · simp [h1, exOk] at h
    · by_cases h2 : strEndsWith r.name "." = true
      · exact ⟨by simpa using h1, h2⟩
      · simp [h1, h2, exOk] at h
  · intro n
    unfold validate
    by_cases h1 : (n == "") = true
    · simp [h1, exOk]
    · by_cases h2 : strEndsWith n "." = true
      · simp only [h1, h2, Bool.false_eq_true, if_neg, not_false_eq_true,
          Bool.not_true, Bool.not_false, if_false, Bool.true_and, Bool.not_eq_true]
        simp [h1, h2, exOk]
        rfl
      · simp [h1, h2, exOk]

/-- Witness for C9's amended theorem at concrete inputs. -/
theorem validate_name_checks_only_nonempty_and_dot_witness :
    (("x." == "") = false ∧ strEndsWith "x." "." = true) ∧
    exOk (validate { name := "x.", type := "CNAME", ttl := 300,
                     value := "t.example.org." }) = true :=
  ⟨validate_name_checks_only_nonempty_and_dot.1
     { name := "x.", type := "CNAME", ttl := 300, value := "t.example.org." }
     (by decide),
   by rw [validate_name_checks_only_nonempty_and_dot.2 "x."]; decide⟩

/-- C10: `Upsert` performs no record validation — a record `validate`
rejects is accepted under the Sync policy (capacity permitting) and then
appears, unchanged, in `List` and `GetAll` output. -/
theorem upsert_skips_validation (fs : FullState) (r : Record)
    (hpol : fs.store.syncPolicy = SyncPolicy.sync)
    (hcap : fs.store.maxRecords = 0 ∨
            countStore fs.store.records < fs.store.maxRecords)
    (_hbad : exOk (validate r) = false) :
    (fs.Upsert r).2 = none ∧
    r ∈ (fs.Upsert r).1.store.list ∧
    r ∈ (fs.Upsert r).1.store.getAll r.name := by
  have h1 := applyUpsert_sync_eq fs.store r hpol (Or.inr hcap)
  have hfs1 := FullState.Upsert_of_ok fs r _ _ _ h1
  have hrec : (fs.Upsert r).1.store.records
      = setList fs.store.records (strLower r.name)
          (upsertList (getList fs.store.records (strLower r.name)) r) := by
    rw [hfs1]
  refine ⟨by rw [hfs1], ?_, ?_⟩
  · show r ∈ collect (fs.Upsert r).1.store.records
    rw [hrec]
    exact mem_collect_setList _ _ _ r (mem_upsertList _ r)
  · show r ∈ getList (fs.Upsert r).1.store.records (strLower r.name)
    rw [hrec, getList_setList_self]
    exact mem_upsertList _ r

/-- An invalid record (empty name, bad A value) used by the C10 witness. -/
def wBadRec : Record := { name := "", type := "A", ttl := 300, value := "nope" }

/-- An empty Sync-policy store with empty persist state, for the witness. -/
def wEmptyFS : FullState :=
  { store := { records := [], maxRecords := 0,
               syncPolicy := SyncPolicy.sync, generation := 0 },
    ps := { persisted := 0, file := [] } }

/-- Witness for C10 at a concrete input. -/
theorem upsert_skips_validation_witness :
    (wEmptyFS.Upsert wBadRec).2 = none ∧
    wBadRec ∈ (wEmptyFS.Upsert wBadRec).1.store.list :=
  ⟨(upsert_skips_validation wEmptyFS wBadRec rfl (Or.inl rfl) (by decide)).1,
   (upsert_skips_validation wEmptyFS wBadRec rfl (Or.inl rfl) (by decide)).2.1⟩

/-! ## Terminal outcomes: NXDOMAIN and NODATA (C5) -/

/-- C5: inside a configured zone, a name with no records and no fallthrough
yields NameError with the synthesized SOA as the only authority record and
no answers; a name with records but none of the queried type and no CNAME
to chase yields NoData — success rcode, zero answers, the synthesized SOA in
the authority section. The SOA is populated exactly per the handler's `soa`. -/
theorem terminal_outcomes_nxdomain_nodata (d : Handler) (qname qt : String)
    (now : Nat) (zone : String)
    (hq : strLower qname = qname)
    (hzone : zonesMatches d.zones qname = some zone) :
    (d.store.getAll qname = [] → fallThrough d.fall qname = false →
       serveDNS d qname qt now
         = Outcome.response rcodeNameError [] [soa zone now]) ∧
    (d.store.getAll qname ≠ [] →
       filterByType (d.store.getAll qname) qt = [] →
       filterByType (d.store.getAll qname) "CNAME" = [] →
       serveDNS d qname qt now
         = Outcome.response rcodeSuccess [] [soa zone now]) ∧
    ((soa zone now).ns = "ns1." ++ zone ∧
      (soa zone now).mbox = "hostmaster." ++ zone ∧
      (soa zone now).serial = now ∧ (soa zone now).refresh = 7200 ∧
      (soa zone now).retry = 1800 ∧ (soa zone now).expire = 86400 ∧
      (soa zone now).minttl = 300 ∧ (soa zone now).ttl = 300) := by
  refine ⟨?_, ?_, rfl, rfl, rfl, rfl, rfl, rfl, rfl, rfl⟩
  · intro h0 hf
    simp [serveDNS, hq, hzone, h0, hf]
  · intro h0 h1 h2
    by_cases hqt : (qt == "A" || qt == "AAAA") = true
    · simp [serveDNS, hq, hzone, h0, h1, h2, hqt]
    · simp [serveDNS, hq, hzone, h0, h1, hqt]

def wAppRec : Record :=
  { name := "app.example.org.", type := "A", ttl := 300, value := "10.0.0.1" }

def wHandlerEmpty : Handler :=
  { zones := ["example.org."],
    store := { records := [], maxRecords := 0,
               syncPolicy := SyncPolicy.sync, generation := 0 },
    fall := [] }

def wHandlerApp : Handler :=
  { zones := ["example.org."],
    store := { records := [("app.example.org.", [wAppRec])], maxRecords := 0,
               syncPolicy := SyncPolicy.sync, generation := 0 },
    fall := [] }

/-- Witness for C5: the spec's two literal resolution scenarios. -/
theorem terminal_outcomes_nxdomain_nodata_witness :
    serveDNS wHandlerEmpty "missing.example.org." "A" 5
      = Outcome.response rcodeNameError [] [soa "example.org." 5] ∧
    serveDNS wHandlerApp "app.example.org." "AAAA" 5
      = Outcome.response rcodeSuccess [] [soa "example.org." 5] :=
  ⟨(terminal_outcomes_nxdomain_nodata wHandlerEmpty "missing.example.org." "A" 5
      "example.org." (by decide) (by decide)).1 (by decide) (by decide),
   (terminal_outcomes_nxdomain_nodata wHandlerApp "app.example.org." "AAAA" 5
      "example.org." (by decide) (by decide)).2.1 (by decide) (by decide)
      (by decide)⟩

/-! ## Alias cycles and the depth cap (C4) -/

/-- A CNAME record, as stored. -/
def mkCname (n v : String) (ttl : Nat) : Record :=
  { name := n, type := "CNAME", ttl := ttl, value := v }

/-- The wire RR a stored CNAME converts to. -/
def cnameRR (n v : String) (ttl : Nat) : RR :=
  { name := n, rtype := "CNAME", ttl := ttl, value := v }

/-- A store holding exactly a two-node CNAME cycle `n1 -> n2 -> n1`. -/
def cycleStore (n1 n2 : String) (t1 t2 : Nat) : Store :=
  { records := [(n1, [mkCname n1 n2 t1]), (n2, [mkCname n2 n1 t2])],
    maxRecords := 0, syncPolicy := SyncPolicy.sync, generation := 0 }

/-- The first `k` entries of the infinite chain alternating between `a`
and `b`. -/
def alternating (a b : RR) : Nat → List RR
  | 0 => []
  | n + 1 => a :: alternating b a n

lemma chase_two_cycle (n1 n2 : String) (t1 t2 : Nat) (qt : String)
    (h1 : strLower n1 = n1) (h2 : strLower n2 = n2) (hne : n1 ≠ n2)
    (hqt : qt = "A" ∨ qt = "AAAA") :
    ∀ fuel,
      chaseGo (cycleStore n1 n2 t1 t2) fuel n1 qt
          = alternating (cnameRR n1 n2 t1) (cnameRR n2 n1 t2) fuel ∧
      chaseGo (cycleStore n1 n2 t1 t2) fuel n2 qt
          = alternating (cnameRR n2 n1 t2) (cnameRR n1 n2 t1) fuel := by
  have hb12 : (n1 == n2) = false := by
    simp [hne]
  have hget1 : (cycleStore n1 n2 t1 t2).getAll n1 = [mkCname n1 n2 t1] := by
    simp [Store.getAll, cycleStore, getList, h1]
  have hget2 : (cycleStore n1 n2 t1 t2).getAll n2 = [mkCname n2 n1 t2] := by
    simp [Store.getAll, cycleStore, getList, h2, hb12]
  have hft : equalFold "CNAME" qt = false := by
    rcases hqt with h | h <;> subst h <;> decide
  have hfilterQt : ∀ a b : String, ∀ t : Nat,
      filterByType [mkCname a b t] qt = [] := by
    intro a b t
    simp [filterByType, mkCname, hft]
  have hfilterC : ∀ a b : String, ∀ t : Nat,
      filterByType [mkCname a b t] "CNAME" = [mkCname a b t] := by
    intro a b t
    simp [filterByType, mkCname]
    decide
  have htoRR : ∀ a b : String, ∀ t : Nat,
      toRR (mkCname a b t) = some (cnameRR a b t) := by
    intro a b t
    simp [toRR, mkCname, cnameRR]
    decide
  have hval : ∀ a b : String, ∀ t : Nat, (mkCname a b t).value = b :=
    fun _ _ _ => rfl
  intro fuel
  induction fuel with
  | zero => exact ⟨rfl, rfl⟩
  | succ n ih =>
      constructor
      · rw [chaseGo]
        simp [hget1, hfilterQt, hfilterC, htoRR, hval, ih.2, alternating]
      · rw [chaseGo]
        simp [hget2, hfilterQt, hfilterC, htoRR, hval, ih.1, alternating]

/-- C4 (amended): an A or AAAA query on a name carrying a two-node CNAME
cycle terminates and returns Success whose answer is the initial CNAME plus
`maxCNAMEHops` chased entries — the first `maxCNAMEHops + 1` (= 11) entries
of the repeating chain; the cycle is only cut by the depth cap. -/
theorem cname_cycle_walks_depth_cap (n1 n2 : String) (t1 t2 : Nat)
    (qt : String) (zones fallZones : List String) (zone : String) (now : Nat)
    (h1 : strLower n1 = n1) (h2 : strLower n2 = n2) (hne : n1 ≠ n2)
    (hqt : qt = "A" ∨ qt = "AAAA")
    (hzone : zonesMatches zones n1 = some zone) :
    serveDNS { zones := zones, store := cycleStore n1 n2 t1 t2,
               fall := fallZones } n1 qt now
      = Outcome.response rcodeSuccess
          (alternating (cnameRR n1 n2 t1) (cnameRR n2 n1 t2)
            (maxCNAMEHops + 1)) [] := by
  have hget1 : (cycleStore n1 n2 t1 t2).getAll n1 = [mkCname n1 n2 t1] := by
    simp [Store.getAll, cycleStore, getList, h1]
  have hft : equalFold "CNAME" qt = false := by
    rcases hqt with h | h <;> subst h <;> decide
  have hfilterQt : filterByType [mkCname n1 n2 t1] qt = [] := by
    simp [filterByType, mkCname, hft]
  have hfilterC : filterByType [mkCname n1 n2 t1] "CNAME" = [mkCname n1 n2 t1] := by
    simp [filterByType, mkCname]
    decide
  have htoRR : toRR (mkCname n1 n2 t1) = some (cnameRR n1 n2 t1) := by
    simp [toRR, mkCname, cnameRR]
    decide
  have hqtb : (qt == "A" || qt == "AAAA") = true := by
    rcases hqt with h | h <;> subst h <;> decide
  have hval : (mkCname n1 n2 t1).value = n2 := rfl
  have hchase := (chase_two_cycle n1 n2 t1 t2 qt h1 h2 hne hqt 10).2
  simp only [serveDNS, h1, hzone, hget1, hfilterQt, hfilterC, htoRR, hqtb,
    List.isEmpty_cons, List.isEmpty_nil, Bool.not_true, Bool.not_false,
    if_false, if_true, Bool.false_eq_true]
  simp [chaseCNAME, hval, hchase, alternating, maxCNAMEHops]

def loopHandler : Handler :=
  { zones := ["example.org."],
    store := cycleStore "loop1.example.org." "loop2.example.org." 300 300,
    fall := [] }

/-- Counterexample to C4 as stated: on the concrete two-node cycle the
answer is the first `maxCNAMEHops + 1` = 11 entries of the repeating chain,
not the first `maxCNAMEHops` = 10 the claim names. -/
theorem cname_cycle_cex :
    serveDNS loopHandler "loop1.example.org." "A" 0
      = Outcome.response rcodeSuccess
          (alternating (cnameRR "loop1.example.org." "loop2.example.org." 300)
            (cnameRR "loop2.example.org." "loop1.example.org." 300)
            (maxCNAMEHops + 1)) [] ∧
    (alternating (cnameRR "loop1.example.org." "loop2.example.org." 300)
        (cnameRR "loop2.example.org." "loop1.example.org." 300)
        (maxCNAMEHops + 1)).length ≠ maxCNAMEHops := by
  constructor
  · decide
  · decide

/-- Witness for C4's amended theorem at a concrete input. -/
theorem cname_cycle_walks_depth_cap_witness :
    serveDNS loopHandler "loop1.example.org." "A" 7
      = Outcome.response rcodeSuccess
          (alternating (cnameRR "loop1.example.org." "loop2.example.org." 300)
            (cnameRR "loop2.example.org." "loop1.example.org." 300)
            (maxCNAMEHops + 1)) [] :=
  cname_cycle_walks_depth_cap "loop1.example.org." "loop2.example.org."
    300 300 "A" ["example.org."] [] "example.org." 7
    (by decide) (by decide) (by decide) (Or.inl rfl) (by decide)

end DynUpdate
